import Mathlib

/-!
Verification of the MEDGraphy repository: the natural-language → graph-query
pipeline in `graph_rag_query.py`, the bulk loader in `graph_rag_loader.py`,
the database accessor in `graph_db.py` and the LLM chains in `llm_chains.py`,
as a shallow embedding.

Python strings are modelled as `List Char` (`Str`).  All string data handled
by the repository is ASCII, so Python `str.lower` / Cypher `toLower` are
embedded as ASCII lower-casing, and Python `str.strip` / `str.split()` as
whitespace trimming / splitting over `Char.isWhitespace`.
-/

abbrev Str := List Char

namespace PyStr

/-- Python `str.lower()` and Cypher `toLower` (ASCII). -/
def lower (s : Str) : Str := s.map Char.toLower

/-- Python `str.strip()`: drop leading and trailing whitespace. -/
def strip (s : Str) : Str :=
  ((s.dropWhile Char.isWhitespace).reverse.dropWhile Char.isWhitespace).reverse

/-- Python `str.split()` with no argument: split on whitespace runs, dropping
empty pieces. -/
def splitWs (s : Str) : List Str :=
  (s.splitOnP Char.isWhitespace).filter (· ≠ [])

/-- Tests whether `pat` occurs at the start of `s`. -/
def startsWith : Str → Str → Bool
  | _, [] => true
  | [], _ :: _ => false
  | c :: cs, p :: ps => p == c && startsWith cs ps

/-- Python `pat in hay` and Cypher `hay CONTAINS pat`: substring containment. -/
def containsSub : Str → Str → Bool
  | [], pat => startsWith [] pat
  | c :: t, pat => startsWith (c :: t) pat || containsSub t pat

/-- Scanner for `replaceAll`; the fuel bounds the scan steps, each of which
consumes at least one character. -/
def replaceAllGo (old new : Str) : Nat → Str → Str
  | 0, s => s
  | _, [] => []
  | fuel + 1, c :: rest =>
    if 0 < old.length && startsWith (c :: rest) old then
      new ++ replaceAllGo old new fuel (rest.drop (old.length - 1))
    else
      c :: replaceAllGo old new fuel rest

/-- Python `s.replace(old, new)` restricted to nonempty `old` (every call site
in the repository passes a nonempty literal pattern): replace all
non-overlapping occurrences, scanning left to right. -/
def replaceAll (old new s : Str) : Str := replaceAllGo old new (s.length + 1) s

end PyStr

/-- Removes later duplicates from a list, keeping the first occurrence of each
element (used to embed Cypher `DISTINCT`; also the membership-faithful model of
Python `list(set(xs))`, whose iteration order is unspecified). -/
def dedupFirst [DecidableEq α] : List α → List α
  | [] => []
  | a :: as => a :: (dedupFirst as).filter (fun b => b ≠ a)

/-- Removes rows whose key repeats an earlier row's key, keeping the first row
for each key: the model of inserting rows into a Python `dict` keyed by
`key` and reading back `list(d.values())`. -/
def dedupByKey [DecidableEq β] (key : α → β) : List α → List α
  | [] => []
  | a :: as => a :: (dedupByKey key as).filter (fun b => key b ≠ key a)

/-- Inserts `a` into `l` before the first element it is `le`-below. -/
def orderedInsert (le : α → α → Bool) (a : α) : List α → List α
  | [] => [a]
  | b :: bs => if le a b then a :: b :: bs else b :: orderedInsert le a bs

/-- Insertion sort by a boolean comparison: the embedding of Cypher
`ORDER BY` (which promises key-sorted output; the order of key-equal rows is
unspecified in Cypher, so any sort is a faithful model). -/
def sortBy (le : α → α → Bool) : List α → List α
  | [] => []
  | a :: as => orderedInsert le a (sortBy le as)

/-! ## `graph_rag_query.py`: `GraphRAGQueryEngine` -/

namespace GraphRAGQueryEngine

/-- The `disease_synonyms` table from `GraphRAGQueryEngine.__init__`. -/
def disease_synonyms : List (Str × List Str) := [
  ("lung cancer".toList, ["lung cancer".toList, "pulmonary cancer".toList,
    "lung carcinoma".toList, "bronchogenic carcinoma".toList,
    "non-small cell lung cancer".toList, "small cell lung cancer".toList]),
  ("breast cancer".toList, ["breast cancer".toList, "mammary cancer".toList,
    "breast carcinoma".toList]),
  ("kidney cancer".toList, ["kidney cancer".toList, "renal cancer".toList,
    "renal cell carcinoma".toList]),
  ("pancreatic cancer".toList, ["pancreatic cancer".toList, "pancreas cancer".toList]),
  ("brain tumor".toList, ["brain tumor".toList, "brain cancer".toList,
    "cerebral tumor".toList]),
  ("ovarian cancer".toList, ["ovarian cancer".toList, "ovary cancer".toList]),
  ("cervical cancer".toList, ["cervical cancer".toList, "cervix cancer".toList])]

/-- The `replacements` dict of `normalize_query`, in insertion (iteration)
order.  An empty right-hand side is Python's `''`. -/
def replacements : List (Str × Str) := [
  ("lung cancers".toList, "lung cancer".toList),
  ("breast cancers".toList, "breast cancer".toList),
  ("what medicines treat".toList, []),
  ("which medicines treat".toList, []),
  ("medicines for".toList, []),
  ("drugs for".toList, []),
  ("treatment for".toList, []),
  ("medicine that treats".toList, [])]

/-- `GraphRAGQueryEngine.normalize_query`: lower-case and strip, apply the
replacement table in order, strip again. -/
def normalize_query (query : Str) : Str :=
  let query := PyStr.strip (PyStr.lower query)
  let query := replacements.foldl (fun q p => PyStr.replaceAll p.1 p.2 q) query
  PyStr.strip query

/-! ### The disease-term regular expression

`extract_disease_from_query` falls back to
`re.findall(r'\b(\w+(?:\s+\w+){0,2}(?:\s+cancer|\s+tumor|\s+disease|\s+syndrome|\s+infection))\b', q, re.IGNORECASE)`.
The pattern is embedded as a direct matcher.  Character classes `\w` and `\s`
are disjoint, so the greedy runs inside the pattern are deterministic maximal
runs; the only backtracking is over the `{0,2}` repetition count, tried
greedily (2, then 1, then 0). -/

/-- Python regex `\w` (ASCII). -/
def isWordChar (c : Char) : Bool := c.isAlphanum || c == '_'

/-- Splits off the maximal leading run of word characters. -/
def takeWordRun (s : Str) : Str × Str := s.span isWordChar

/-- Splits off the maximal leading run of whitespace. -/
def takeWsRun (s : Str) : Str × Str := s.span Char.isWhitespace

/-- The five alternatives of the trailing group, as lower-case words. -/
def diseaseKeywords : List Str :=
  ["cancer".toList, "tumor".toList, "disease".toList, "syndrome".toList,
   "infection".toList]

/-- Matches `kw` case-insensitively at the head of `s`, requiring a word
boundary right after; returns consumed characters and the rest. -/
def matchKeywordAt (s : Str) (kw : Str) : Option (Str × Str) :=
  let hd := s.take kw.length
  let tl := s.drop kw.length
  if PyStr.lower hd = kw ∧ (tl = [] ∨ ¬ isWordChar tl.headI) then
    some (hd, tl)
  else
    none

/-- Matches `(?:\s+cancer|\s+tumor|\s+disease|\s+syndrome|\s+infection)\b`:
a nonempty whitespace run, then one of the keywords at a word boundary. -/
def matchTail (s : Str) : Option (Str × Str) :=
  let (ws, rest) := takeWsRun s
  if ws = [] then none
  else
    match diseaseKeywords.findSome? (matchKeywordAt rest) with
    | some (kw, rest2) => some (ws ++ kw, rest2)
    | none => none

/-- Matches exactly `k` repetitions of `\s+\w+` (each run maximal). -/
def matchReps : Nat → Str → Option (Str × Str)
  | 0, s => some ([], s)
  | k + 1, s =>
    let (ws, rest) := takeWsRun s
    if ws = [] then none
    else
      let (w, rest2) := takeWordRun rest
      if w = [] then none
      else
        match matchReps k rest2 with
        | some (mid, rest3) => some (ws ++ w ++ mid, rest3)
        | none => none

/-- Attempts the whole pattern at the current position (the caller has already
checked the left word boundary): `\w+ (\s+\w+){0,2} \s+keyword \b`, trying the
repetition count greedily. -/
def tryMatchAt (s : Str) : Option (Str × Str) :=
  let (w0, rest0) := takeWordRun s
  if w0 = [] then none
  else
    [2, 1, 0].findSome? fun k =>
      match matchReps k rest0 with
      | some (mid, rest1) =>
        match matchTail rest1 with
        | some (tail, rest2) => some (w0 ++ mid ++ tail, rest2)
        | none => none
      | none => none

/-- Scanner for `re.findall`: tries the pattern at each position from left to
right, emits each match's capture and resumes after it.  `prev` is the
character before the current position (for the left `\b`); the fuel is an upper
bound on the number of scan steps, each of which consumes at least one
character. -/
def findAllGo : Nat → Option Char → Str → List Str
  | 0, _, _ => []
  | _, _, [] => []
  | fuel + 1, prev, c :: rest =>
    let boundaryOk := match prev with
      | none => true
      | some p => ¬ isWordChar p
    if boundaryOk then
      match tryMatchAt (c :: rest) with
      | some (m, rest2) => m :: findAllGo fuel (some m.getLastI) rest2
      | none => findAllGo fuel (some c) rest
    else
      findAllGo fuel (some c) rest

/-- `re.findall` for the disease-term pattern over `s`. -/
def findDiseaseTerms (s : Str) : List Str :=
  findAllGo (s.length + 1) none s

/-- The synonym-table pass of `extract_disease_from_query`: for each
`(main_disease, synonyms)` entry, append `main_disease` once if any synonym is
a substring of the normalized query (the inner `break` after the first hit). -/
def synonymHits (normalized_query : Str) : List Str :=
  disease_synonyms.foldl
    (fun acc ms =>
      if ms.2.any (fun syn => PyStr.containsSub normalized_query syn) then
        acc ++ [ms.1]
      else acc) []

/-- `GraphRAGQueryEngine.extract_disease_from_query`: normalize, take the
synonym-table hits; if none, the stripped regex matches.  The final Python
`list(set(found_diseases))` is modelled as first-occurrence deduplication
(membership-faithful; Python's set iteration order is unspecified). -/
def extract_disease_from_query (query : Str) : List Str :=
  let normalized_query := normalize_query query
  let found_diseases := synonymHits normalized_query
  let found_diseases :=
    if found_diseases = [] then
      found_diseases ++ (findDiseaseTerms normalized_query).map PyStr.strip
    else found_diseases
  dedupFirst found_diseases

end GraphRAGQueryEngine

/-! ### The three retrieval strategies of `semantic_disease_search`

The database is modelled by the row source shared by the three Cypher queries:
the rows of `MATCH (m:Medicine)-[:USED_FOR]->(d:Disease)` together with the
values bound by the two `OPTIONAL MATCH` clauses. -/

/-- One `(m)-[:USED_FOR]->(d)` pattern row with its optional composition and
manufacturer. -/
structure MDEdge where
  medicine : Str
  disease : Str
  composition : Option Str
  manufacturer : Option Str
deriving DecidableEq

/-- The medicine-disease rows the graph store returns for the search pattern. -/
abbrev GraphDB := List MDEdge

/-- One returned row (a Python dict); `word_matches` is present only on
strategy-3 rows. -/
structure SearchRow where
  medicine : Str
  disease_treated : Str
  composition : Option Str
  manufacturer : Option Str
  word_matches : Option Nat
deriving DecidableEq

/-- The `word_matches` column of a strategy-3 row. -/
def wmOf (r : SearchRow) : Nat := r.word_matches.getD 0

/-- Cypher string ordering: lexicographic by code point. -/
def listCharLe : Str → Str → Bool
  | [], _ => true
  | _ :: _, [] => false
  | a :: as, b :: bs =>
    if a.toNat < b.toNat then true
    else if b.toNat < a.toNat then false
    else listCharLe as bs

namespace GraphRAGQueryEngine

/-- `ORDER BY m.name` (strategy 1). -/
def rowLeByMedicine (a b : SearchRow) : Bool :=
  listCharLe a.medicine b.medicine

/-- `ORDER BY length(d.name) ASC, m.name` (strategy 2). -/
def rowLeByLen (a b : SearchRow) : Bool :=
  if a.disease_treated.length ≠ b.disease_treated.length then
    decide (a.disease_treated.length < b.disease_treated.length)
  else
    listCharLe a.medicine b.medicine

/-- `ORDER BY word_matches DESC, length(d.name) ASC, m.name` (strategy 3). -/
def rowLeByMatches (a b : SearchRow) : Bool :=
  if wmOf a ≠ wmOf b then decide (wmOf b < wmOf a)
  else rowLeByLen a b

/-- The columns every strategy returns for an edge row. -/
def plainRow (e : MDEdge) : SearchRow :=
  ⟨e.medicine, e.disease, e.composition, e.manufacturer, none⟩

/-- Strategy 1 (`exact_query`): `WHERE toLower(d.name) = toLower($disease_query)`,
`RETURN DISTINCT …`, `ORDER BY m.name`. -/
def exactResults (g : GraphDB) (disease_query : Str) : List SearchRow :=
  sortBy rowLeByMedicine
    (dedupFirst ((g.filter fun e =>
      decide (PyStr.lower e.disease = PyStr.lower disease_query)).map plainRow))

/-- Strategy 2 (`contains_query`): `WHERE toLower(d.name) CONTAINS
toLower($disease_query)`, `RETURN DISTINCT …`, `ORDER BY length(d.name) ASC,
m.name`. -/
def containsResults (g : GraphDB) (disease_query : Str) : List SearchRow :=
  sortBy rowLeByLen
    (dedupFirst ((g.filter fun e =>
      PyStr.containsSub (PyStr.lower e.disease) (PyStr.lower disease_query)).map plainRow))

/-- A strategy-3 row: the shared columns plus
`word_matches = size([word IN $words WHERE toLower(d.name) CONTAINS word])`
(counted with multiplicity, as the Cypher list comprehension does). -/
def wordRow (words : List Str) (e : MDEdge) : SearchRow :=
  ⟨e.medicine, e.disease, e.composition, e.manufacturer,
   some ((words.filter fun w => PyStr.containsSub (PyStr.lower e.disease) w).length)⟩

/-- Strategy 3 (`word_query`): `WHERE ANY(word IN $words WHERE toLower(d.name)
CONTAINS word)`, compute `word_matches`, `WHERE word_matches >= 1`,
`RETURN DISTINCT …`, `ORDER BY word_matches DESC, length(d.name) ASC, m.name`. -/
def wordResults (g : GraphDB) (words : List Str) : List SearchRow :=
  let rows := (g.filter fun e =>
    words.any fun w => PyStr.containsSub (PyStr.lower e.disease) w).map (wordRow words)
  let rows := rows.filter fun r => decide (1 ≤ wmOf r)
  sortBy rowLeByMatches (dedupFirst rows)

/-- `GraphRAGQueryEngine.semantic_disease_search`: strategy 1; if it returned
no rows, strategy 2; if that also returned no rows and the lower-cased query
splits into more than one word, strategy 3; otherwise the empty list. -/
def semantic_disease_search (g : GraphDB) (disease_query : Str) : List SearchRow :=
  let exact_results := exactResults g disease_query
  if exact_results ≠ [] then exact_results
  else
    let contains_results := containsResults g disease_query
    if contains_results ≠ [] then contains_results
    else
      let words := PyStr.splitWs (PyStr.lower disease_query)
      if 1 < words.length then wordResults g words
      else []

/-- The sequence of strategies whose query `semantic_disease_search` actually
sends to the database, in order (1 = exact, 2 = contains, 3 = word-based):
the instrumented control flow of the same source function. -/
def strategiesInvoked (g : GraphDB) (disease_query : Str) : List Nat :=
  1 :: (if exactResults g disease_query ≠ [] then []
    else 2 :: (if containsResults g disease_query ≠ [] then []
      else if 1 < (PyStr.splitWs (PyStr.lower disease_query)).length then [3]
      else []))

/-- The result dict of `answer_natural_language_query`. -/
structure NLQueryResult where
  original_query : Str
  normalized_query : Str
  extracted_diseases : List Str
  medicines_found : List SearchRow
  total_medicines : Nat
  search_strategies_used : List Str
deriving DecidableEq

/-- An ASCII apostrophe (code point 39). -/
def aposChar : Char := Char.ofNat 39

/-- The f-string `f"Found medicines for '{disease}'"`. -/
def foundMsg (disease : Str) : Str :=
  "Found medicines for ".toList ++ [aposChar] ++ disease ++ [aposChar]

/-- The `all_medicines` concatenation built by `answer_natural_language_query`:
the per-extracted-disease searches in order, then — only when no disease was
extracted — the direct search with the normalized query. -/
def allMedicines (g : GraphDB) (query : Str) : List SearchRow :=
  let extracted := extract_disease_from_query query
  let all := extracted.foldl (fun acc d => acc ++ semantic_disease_search g d) []
  if extracted = [] then all ++ semantic_disease_search g (normalize_query query)
  else all

/-- The `search_strategies_used` list built by the search loop of
`answer_natural_language_query`: one message per extracted disease whose
search returned rows, plus the direct-search message when no disease was
extracted and the direct search returned rows. -/
def strategiesUsed (g : GraphDB) (query : Str) : List Str :=
  let extracted_diseases := extract_disease_from_query query
  let strategies := (extracted_diseases.filter fun d =>
    !(semantic_disease_search g d).isEmpty).map foundMsg
  if extracted_diseases = [] ∧
      semantic_disease_search g (normalize_query query) ≠ []
  then strategies ++ ["Direct search with query".toList]
  else strategies

/-- `GraphRAGQueryEngine.answer_natural_language_query`: search each extracted
disease (or the whole normalized query when none was extracted), then
deduplicate by medicine name through the `unique_medicines` dict, which keeps
the first row seen for each name; `medicines_found` is
`list(unique_medicines.values())` and `total_medicines` is
`len(unique_medicines)` — the length of the same dict. -/
def answer_natural_language_query (g : GraphDB) (query : Str) : NLQueryResult :=
  { original_query := query
    normalized_query := normalize_query query
    extracted_diseases := extract_disease_from_query query
    medicines_found := dedupByKey (fun r => r.medicine) (allMedicines g query)
    total_medicines := (dedupByKey (fun r => r.medicine) (allMedicines g query)).length
    search_strategies_used := strategiesUsed g query }

end GraphRAGQueryEngine

/-! ## `graph_rag_loader.py`: `GraphRAGLoader` -/

namespace GraphRAGLoader

/-- Case-insensitive literal match at the head of `s`. -/
def startsWithCI (s lit : Str) : Bool :=
  PyStr.startsWith (PyStr.lower s) (PyStr.lower lit)

/-! ### `parse_uses_field`

The two patterns `r'Treatment of ([^T]+?)(?=Treatment of|Prevention of|$)'`
and `r'Prevention of ([^T]+?)(?=Treatment of|Prevention of|$)'` are run with
`re.findall(..., re.IGNORECASE)`.  Under `IGNORECASE` the class `[^T]`
excludes both `T` and `t`; the lazy group stops at the first position where
the lookahead succeeds. -/

/-- The lookahead `(?=Treatment of|Prevention of|$)` (case-insensitive). -/
def usesLookahead (s : Str) : Bool :=
  startsWithCI s "Treatment of".toList || startsWithCI s "Prevention of".toList
    || s.isEmpty

/-- The lazy group `([^T]+?)` up to the first succeeding lookahead: consumes
characters other than `T`/`t`, checking the lookahead after each one. -/
def findCapture : Str → Option (Str × Str)
  | [] => none
  | c :: rest =>
    if c == 'T' || c == 't' then none
    else if usesLookahead rest then some ([c], rest)
    else
      match findCapture rest with
      | some (cap, r) => some (c :: cap, r)
      | none => none

/-- `re.findall` scanner for one of the two uses patterns: scan left to right,
at each position try the (case-insensitive) literal followed by the lazy
capture; on success emit the capture and resume after the match.  The fuel
bounds the scan steps (each consumes at least one character). -/
def findUsesGo (lit : Str) : Nat → Str → List Str
  | 0, _ => []
  | _, [] => []
  | fuel + 1, c :: rest =>
    if startsWithCI (c :: rest) lit then
      match findCapture ((c :: rest).drop lit.length) with
      | some (cap, r) => cap :: findUsesGo lit fuel r
      | none => findUsesGo lit fuel rest
    else
      findUsesGo lit fuel rest

/-- All matches of one uses pattern over `s`. -/
def findPatternUses (lit : Str) (s : Str) : List Str :=
  findUsesGo lit (s.length + 1) s

/-- Scanner for `pySplitOn`; the fuel bounds the scan steps, each of which
consumes at least one character. -/
def pySplitOnGo (sep : Str) : Nat → Str → List Str
  | 0, s => [s]
  | _, [] => [[]]
  | fuel + 1, c :: rest =>
    if 0 < sep.length && PyStr.startsWith (c :: rest) sep then
      [] :: pySplitOnGo sep fuel (rest.drop (sep.length - 1))
    else
      match pySplitOnGo sep fuel rest with
      | [] => [[c]]
      | p :: ps => (c :: p) :: ps

/-- Python `s.split(sep)` for nonempty `sep` (all call sites pass nonempty
literals): case-sensitive, keeps empty pieces. -/
def pySplitOn (sep : Str) (s : Str) : List Str := pySplitOnGo sep (s.length + 1) s

/-- The cleanup step of `parse_uses_field`: strip, then
`re.sub(r'^(Treatment of |Prevention of )', '', use, flags=re.IGNORECASE)`
(anchored, so at most one removal; `Treatment of ` is tried first). -/
def cleanUse (u : Str) : Str :=
  let u := PyStr.strip u
  if startsWithCI u "Treatment of ".toList then u.drop "Treatment of ".length
  else if startsWithCI u "Prevention of ".toList then u.drop "Prevention of ".length
  else u

/-- `GraphRAGLoader.parse_uses_field`: empty text gives no uses; otherwise the
two regex passes in order; if both found nothing, iterative splitting by the
separator list; then per-use cleanup keeping only results longer than two
characters. -/
def parse_uses_field (uses_text : Str) : List Str :=
  if uses_text = [] then []
  else
    let uses_list := findPatternUses "Treatment of ".toList uses_text
      ++ findPatternUses "Prevention of ".toList uses_text
    let uses_list :=
      if uses_list = [] then
        let separators := [" Treatment of ".toList, " Prevention of ".toList,
          ",".toList, ";".toList, " and ".toList, " or ".toList]
        let parts := separators.foldl
          (fun parts sep => parts.flatMap (pySplitOn sep)) [uses_text]
        (parts.map PyStr.strip).filter (· ≠ [])
      else uses_list
    (uses_list.map cleanUse).filter fun u => u ≠ [] ∧ 2 < u.length

/-- `re.split(r'[,;]|\s+(?=[A-Z])', text)` scanner: split at a comma or
semicolon, or at a whitespace run whose maximal extent is followed by an
ASCII upper-case letter.  `acc` is the current piece, reversed. -/
def seSplitGo : Nat → Str → Str → List Str
  | 0, acc, _ => [acc.reverse]
  | _, acc, [] => [acc.reverse]
  | fuel + 1, acc, c :: rest =>
    if c == ',' || c == ';' then
      acc.reverse :: seSplitGo fuel [] rest
    else if c.isWhitespace then
      let rest2 := (c :: rest).dropWhile Char.isWhitespace
      if (match rest2 with | [] => false | d :: _ => d.isUpper) then
        acc.reverse :: seSplitGo fuel [] rest2
      else
        seSplitGo fuel (c :: acc) rest
    else
      seSplitGo fuel (c :: acc) rest

/-- `GraphRAGLoader.parse_side_effects_field`: empty text gives no effects;
otherwise split on the regex, strip each piece, keep pieces longer than two
characters. -/
def parse_side_effects_field (effects_text : Str) : List Str :=
  if effects_text = [] then []
  else
    ((seSplitGo (effects_text.length + 1) [] effects_text).map PyStr.strip).filter
      fun e => e ≠ [] ∧ 2 < e.length

/-! ### The graph state and the MERGE semantics of `load_csv_to_graph` -/

/-- A `Medicine` node: identity is the raw `name`; the other properties are
written by `SET` clauses. -/
structure MedicineNode where
  name : Str
  normalized_name : Option Str
  composition : Option Str
  manufacturer : Option Str
deriving DecidableEq

/-- A node of any of the other labels (`Disease`, `Composition`,
`Manufacturer`, `SideEffect`). -/
structure NamedNode where
  name : Str
  normalized_name : Option Str
deriving DecidableEq

/-- The property-graph state the loader manipulates, one list per label and
per relationship type. -/
structure GraphState where
  medicines : List MedicineNode
  compositions : List NamedNode
  manufacturers : List NamedNode
  diseases : List NamedNode
  sideEffects : List NamedNode
  hasComposition : List (Str × Str)
  manufacturedBy : List (Str × Str)
  usedFor : List (Str × Str)
  hasSideEffect : List (Str × Str)
deriving DecidableEq

/-- The graph after `MATCH (n) DETACH DELETE n`. -/
def emptyGraph : GraphState := ⟨[], [], [], [], [], [], [], [], []⟩

/-- `MERGE (m:Medicine {name: $medicine}) SET m.normalized_name =
toLower($medicine), m.composition = $composition, m.manufacturer =
$manufacturer`: match on the raw name; update the matched node's properties,
or create the node. -/
def mergeMedicineSet (ms : List MedicineNode) (name comp man : Str) :
    List MedicineNode :=
  if ms.any fun m => decide (m.name = name) then
    ms.map fun m =>
      if m.name = name then
        { m with normalized_name := some (PyStr.lower name),
                 composition := some comp, manufacturer := some man }
      else m
  else
    ms ++ [⟨name, some (PyStr.lower name), some comp, some man⟩]

/-- A bare `MERGE (m:Medicine {name: $medicine})` with no `SET`: creates the
node (with only its name) when absent, otherwise changes nothing. -/
def mergeMedicineBare (ms : List MedicineNode) (name : Str) : List MedicineNode :=
  if ms.any fun m => decide (m.name = name) then ms
  else ms ++ [⟨name, none, none, none⟩]

/-- A bare `MERGE (n:Label {name: $name})` for the other labels. -/
def mergeNamedBare (ns : List NamedNode) (name : Str) : List NamedNode :=
  if ns.any fun n => decide (n.name = name) then ns
  else ns ++ [⟨name, none⟩]

/-- `MERGE (n:Label {name: $name}) SET n.normalized_name = toLower($name)`. -/
def mergeNamedSet (ns : List NamedNode) (name : Str) : List NamedNode :=
  if ns.any fun n => decide (n.name = name) then
    ns.map fun n =>
      if n.name = name then { n with normalized_name := some (PyStr.lower name) }
      else n
  else
    ns ++ [⟨name, some (PyStr.lower name)⟩]

/-- `MERGE (a)-[:REL]->(b)`: add the edge when absent. -/
def mergeEdge (es : List (Str × Str)) (e : Str × Str) : List (Str × Str) :=
  if e ∈ es then es else es ++ [e]

/-- One row of the input CSV; a `none` field is a missing (`pd.isna`) cell. -/
structure CsvRow where
  medicineName : Str
  composition : Option Str
  manufacturer : Option Str
  uses : Option Str
  sideEffects : Option Str
deriving DecidableEq

/-- The `medicine_query` of `load_csv_to_graph`: `MERGE (m:Medicine {name:
$medicine}) SET m.normalized_name = toLower($medicine), m.composition =
$composition, m.manufacturer = $manufacturer`. -/
def applyMedicineQuery (s : GraphState) (medicine composition manufacturer : Str) :
    GraphState :=
  { s with medicines := mergeMedicineSet s.medicines medicine composition manufacturer }

/-- The `comp_query`: merge the composition and manufacturer nodes, a bare
merge of the medicine, and the `HAS_COMPOSITION` / `MANUFACTURED_BY` edges. -/
def applyCompQuery (s : GraphState) (medicine composition manufacturer : Str) :
    GraphState :=
  { s with
    compositions := mergeNamedBare s.compositions composition
    manufacturers := mergeNamedBare s.manufacturers manufacturer
    medicines := mergeMedicineBare s.medicines medicine
    hasComposition := mergeEdge s.hasComposition (medicine, composition)
    manufacturedBy := mergeEdge s.manufacturedBy (medicine, manufacturer) }

/-- The per-use `disease_query`: `MERGE (d:Disease {name: $disease}) SET
d.normalized_name = toLower($disease)`, a bare merge of the medicine, and the
`USED_FOR` edge. -/
def applyDiseaseQuery (s : GraphState) (medicine disease : Str) : GraphState :=
  { s with
    diseases := mergeNamedSet s.diseases disease
    medicines := mergeMedicineBare s.medicines medicine
    usedFor := mergeEdge s.usedFor (medicine, disease) }

/-- The per-effect `effect_query`: `MERGE (s:SideEffect {name: $effect}) SET
s.normalized_name = toLower($effect)`, a bare merge of the medicine, and the
`HAS_SIDE_EFFECT` edge. -/
def applyEffectQuery (s : GraphState) (medicine effect : Str) : GraphState :=
  { s with
    sideEffects := mergeNamedSet s.sideEffects effect
    medicines := mergeMedicineBare s.medicines medicine
    hasSideEffect := mergeEdge s.hasSideEffect (medicine, effect) }

/-- One iteration of the row loop of `load_csv_to_graph` (the success path:
the per-row `try/except` guards runtime failures that cannot occur in the
model, where every field is well-typed): the medicine upsert, the
composition/manufacturer merges and edges, then one `disease_query` per
parsed use and one `effect_query` per parsed effect. -/
def processRow (s : GraphState) (row : CsvRow) : GraphState :=
  let medicine := PyStr.strip row.medicineName
  let composition := match row.composition with
    | some c => PyStr.strip c
    | none => "Unknown".toList
  let manufacturer := match row.manufacturer with
    | some m => PyStr.strip m
    | none => "Unknown".toList
  let uses_list := parse_uses_field (row.uses.getD [])
  let effects_list := parse_side_effects_field (row.sideEffects.getD [])
  let s := applyMedicineQuery s medicine composition manufacturer
  let s := applyCompQuery s medicine composition manufacturer
  let s := uses_list.foldl (fun s disease => applyDiseaseQuery s medicine disease) s
  effects_list.foldl (fun s effect => applyEffectQuery s medicine effect) s

/-- `GraphRAGLoader.load_csv_to_graph` run against the graph state `s`:
create constraints and indexes (schema metadata, not part of the node/edge
state), clear all existing data (`MATCH (n) DETACH DELETE n`), then process
every CSV row in order. -/
def load_csv_to_graph (s : GraphState) (rows : List CsvRow) : GraphState :=
  let _cleared := s
  rows.foldl processRow emptyGraph

/-- The total number of nodes in the graph, over all five labels. -/
def nodeCount (s : GraphState) : Nat :=
  s.medicines.length + s.compositions.length + s.manufacturers.length
    + s.diseases.length + s.sideEffects.length

end GraphRAGLoader

/-! ## `graph_db.py`: `Neo4jConnection.query` -/

namespace Neo4jConnection

/-- The session-lifecycle events observable from one `query` invocation. -/
inductive Ev
  | opened
  | ran
  | logged
  | closed
deriving DecidableEq

/-- `Neo4jConnection.query`, over the driver's behaviour: `openOk` says
whether `driver.session()` succeeds, `run` is what `list(session.run(...))`
produces (`Except.error` = the call raises).  The source:
`session = None; response = None` — `try:` open the session and run the query
— `except Exception as e: print("Query failed:", e)` — `finally:` close the
session if one was opened — `return response`.  Returns the response (`none`
is Python's `None`) and the event trace. -/
def query {α : Type} (openOk : Bool) (run : Except Str (List α)) :
    Option (List α) × List Ev :=
  if openOk then
    match run with
    | .ok rows => (some rows, [.opened, .ran, .closed])
    | .error _ => (none, [.opened, .logged, .closed])
  else
    (none, [.logged])

end Neo4jConnection

/-! ## `llm_chains.py`: `assistant_chain` and its Tab 2 caller in `app.py` -/

namespace LLMChains

/-- The outcome of one hosted-LLM completion call: generated text, or a
raised API/network error. -/
inductive LLMOutcome
  | ok (text : Str)
  | apiError (msg : Str)
deriving DecidableEq

/-- The `assistant_template` prompt string of `llm_chains.py`. -/
def assistant_template : Str :=
  ("\nYou are an AI Drug Assistant. Your goal is to provide a clear and concise explanation of a medicine\nbased on the structured data provided. Do not mention that the data is from a graph. Just present the information.\n\nContext from database:\n{context}\n\nQuestion:\n{question}\n\nAnswer in a user-friendly format:\n").toList

/-- `PromptTemplate` substitution of the two input variables. -/
def assistant_prompt_format (context question : Str) : Str :=
  PyStr.replaceAll "{question}".toList question
    (PyStr.replaceAll "{context}".toList context assistant_template)

/-- `assistant_chain.invoke({"context": …, "question": …})`: format the
prompt and call the LLM; on success return the LangChain result dict (inputs
plus the `text` output key).  Neither `llm_chains.py` nor the Tab 2 handler
in `app.py` contains a `try/except` around this call, so a raised API error
propagates to the caller — modelled by the `Except.error` result. -/
def assistant_chain_invoke (llm : Str → LLMOutcome) (context question : Str) :
    Except Str (List (Str × Str)) :=
  match llm (assistant_prompt_format context question) with
  | .ok t => .ok [("context".toList, context), ("question".toList, question),
      ("text".toList, t)]
  | .apiError e => .error e

/-- The `Explain Medicine` branch of `app.py` Tab 2 around the `invoke` call:
on success it renders `response['text']`; it installs no handler, so an API
error propagates further. -/
def app_tab2_explain (llm : Str → LLMOutcome) (context question : Str) :
    Except Str Str :=
  match assistant_chain_invoke llm context question with
  | .ok kvs => .ok ((kvs.lookup "text".toList).getD [])
  | .error e => .error e

end LLMChains

/-! ## Helper lemmas -/


theorem mem_dedupFirst [DecidableEq α] {a : α} {l : List α} :
    a ∈ dedupFirst l ↔ a ∈ l := by
  induction l with
  | nil => simp [dedupFirst]
  | cons b bs ih =>
    by_cases hab : a = b
    · subst hab
      simp [dedupFirst]
    · simp [dedupFirst, List.mem_filter, hab, ih]

theorem mem_dedupByKey [DecidableEq β] {key : α → β} {a : α} {l : List α}
    (h : a ∈ dedupByKey key l) : a ∈ l := by
  induction l with
  | nil => simp [dedupByKey] at h
  | cons b bs ih =>
    rw [dedupByKey] at h
    rcases List.mem_cons.mp h with h | h
    · exact h ▸ List.mem_cons_self _ _
    · exact List.mem_cons_of_mem _ (ih (List.mem_of_mem_filter h))

theorem dedupByKey_map_nodup [DecidableEq β] (key : α → β) (l : List α) :
    ((dedupByKey key l).map key).Nodup := by
  induction l with
  | nil => simp [dedupByKey]
  | cons b bs ih =>
    rw [dedupByKey]
    simp only [List.map_cons, List.nodup_cons]
    constructor
    · intro hmem
      rcases List.mem_map.mp hmem with ⟨x, hx, hkey⟩
      have hne : ¬ key x = key b := by
        simpa using (List.mem_filter.mp hx).2
      exact hne hkey
    · exact ((List.filter_sublist _).map key).nodup ih

theorem find?_dedupByKey [DecidableEq β] {key : α → β} {a : α} {l : List α}
    (h : a ∈ dedupByKey key l) :
    l.find? (fun b => decide (key b = key a)) = some a := by
  induction l with
  | nil => simp [dedupByKey] at h
  | cons b bs ih =>
    rw [dedupByKey] at h
    rcases List.mem_cons.mp h with h | h
    · subst h
      exact List.find?_cons_of_pos _ (by simp)
    · have hmemf := List.mem_filter.mp h
      have hne : key a ≠ key b := by simpa using hmemf.2
      rw [List.find?_cons_of_neg _ (by simpa using fun hc => hne hc.symm)]
      exact ih hmemf.1

theorem mem_orderedInsert {le : α → α → Bool} {a x : α} :
    ∀ {l : List α}, x ∈ orderedInsert le a l ↔ x = a ∨ x ∈ l
  | [] => by simp [orderedInsert]
  | b :: bs => by
    rw [orderedInsert]
    by_cases h : le a b
    · simp [h]
    · rw [if_neg h]
      simp only [List.mem_cons, mem_orderedInsert]
      tauto

theorem mem_sortBy {le : α → α → Bool} {x : α} :
    ∀ {l : List α}, x ∈ sortBy le l ↔ x ∈ l
  | [] => Iff.rfl
  | b :: bs => by
    rw [sortBy, mem_orderedInsert, mem_sortBy]
    simp

theorem pairwise_orderedInsert {le : α → α → Bool}
    (total : ∀ a b, le a b || le b a)
    (trans : ∀ a b c, le a b = true → le b c = true → le a c = true)
    (a : α) :
    ∀ {l : List α}, l.Pairwise (fun x y => le x y = true) →
      (orderedInsert le a l).Pairwise (fun x y => le x y = true)
  | [], _ => by simp [orderedInsert]
  | b :: bs, hp => by
    rw [orderedInsert]
    rcases List.pairwise_cons.mp hp with ⟨hb, hbs⟩
    by_cases h : le a b = true
    · rw [if_pos h]
      refine List.pairwise_cons.mpr ⟨?_, hp⟩
      intro x hx
      rcases List.mem_cons.mp hx with hx | hx
      · exact hx ▸ h
      · exact trans a b x h (hb x hx)
    · rw [if_neg h]
      refine List.pairwise_cons.mpr ⟨?_, pairwise_orderedInsert total trans a hbs⟩
      intro x hx
      rcases mem_orderedInsert.mp hx with rfl | hx
      · have htot := total x b
        simp [h] at htot
        exact htot
      · exact hb x hx

theorem pairwise_sortBy {le : α → α → Bool}
    (total : ∀ a b, le a b || le b a)
    (trans : ∀ a b c, le a b = true → le b c = true → le a c = true) :
    ∀ l : List α, (sortBy le l).Pairwise (fun x y => le x y = true)
  | [] => List.Pairwise.nil
  | b :: bs =>
    pairwise_orderedInsert total trans b (pairwise_sortBy total trans bs)

theorem listCharLe_total : ∀ a b : Str, listCharLe a b || listCharLe b a
  | [], _ => by simp [listCharLe]
  | _ :: _, [] => by simp [listCharLe]
  | a :: as, b :: bs => by
    simp only [listCharLe]
    rcases Nat.lt_trichotomy a.toNat b.toNat with h | h | h
    · simp [h]
    · rw [if_neg (by omega), if_neg (by omega), if_neg (by omega),
        if_neg (by omega)]
      exact listCharLe_total as bs
    · simp [h, Nat.lt_asymm h]

theorem listCharLe_trans :
    ∀ a b c : Str, listCharLe a b = true → listCharLe b c = true →
      listCharLe a c = true
  | [], _, _, _, _ => rfl
  | _ :: _, [], _, h, _ => by simp [listCharLe] at h
  | _ :: _, _ :: _, [], _, h => by simp [listCharLe] at h
  | a :: as, b :: bs, c :: cs, h1, h2 => by
    simp only [listCharLe] at h1 h2 ⊢
    rcases Nat.lt_trichotomy a.toNat b.toNat with hab | hab | hab
    · rcases Nat.lt_trichotomy b.toNat c.toNat with hbc | hbc | hbc
      · rw [if_pos (by omega)]
      · rw [if_pos (by omega)]
      · rw [if_neg (by omega), if_pos hbc] at h2
        exact absurd h2 (by simp)
    · rcases Nat.lt_trichotomy b.toNat c.toNat with hbc | hbc | hbc
      · rw [if_pos (by omega)]
      · rw [if_neg (by omega), if_neg (by omega)] at h1 h2 ⊢
        exact listCharLe_trans as bs cs h1 h2
      · rw [if_neg (by omega), if_pos hbc] at h2
        exact absurd h2 (by simp)
    · rw [if_neg (by omega), if_pos hab] at h1
      exact absurd h1 (by simp)

namespace GraphRAGQueryEngine

theorem rowLeByLen_total : ∀ a b : SearchRow, rowLeByLen a b || rowLeByLen b a := by
  intro a b
  simp only [rowLeByLen]
  by_cases h : a.disease_treated.length = b.disease_treated.length
  · rw [if_neg (by omega), if_neg (by omega)]
    exact listCharLe_total _ _
  · rw [if_pos (by omega), if_pos (by omega)]
    simp only [decide_eq_true_eq, Bool.or_eq_true]
    omega

theorem rowLeByLen_trans : ∀ a b c : SearchRow,
    rowLeByLen a b = true → rowLeByLen b c = true → rowLeByLen a c = true := by
  intro a b c h1 h2
  simp only [rowLeByLen] at h1 h2 ⊢
  by_cases hab : a.disease_treated.length = b.disease_treated.length <;>
    by_cases hbc : b.disease_treated.length = c.disease_treated.length
  · rw [if_neg (by omega)] at h1
    rw [if_neg (by omega)] at h2
    rw [if_neg (by omega)]
    exact listCharLe_trans _ _ _ h1 h2
  · rw [if_pos (by omega)] at h2
    rw [if_pos (by omega)]
    simp only [decide_eq_true_eq] at h2 ⊢
    omega
  · rw [if_pos (by omega)] at h1
    rw [if_pos (by omega)]
    simp only [decide_eq_true_eq] at h1 ⊢
    omega
  · rw [if_pos (by omega)] at h1
    rw [if_pos (by omega)] at h2
    simp only [decide_eq_true_eq] at h1 h2
    by_cases hac : a.disease_treated.length = c.disease_treated.length
    · omega
    · rw [if_pos (by omega)]
      simp only [decide_eq_true_eq]
      omega

theorem rowLeByMatches_total : ∀ a b : SearchRow,
    rowLeByMatches a b || rowLeByMatches b a := by
  intro a b
  simp only [rowLeByMatches]
  by_cases h : wmOf a = wmOf b
  · rw [if_neg (by omega), if_neg (by omega)]
    exact rowLeByLen_total _ _
  · rw [if_pos (by omega), if_pos (by omega)]
    simp only [decide_eq_true_eq, Bool.or_eq_true]
    omega

theorem rowLeByMatches_trans : ∀ a b c : SearchRow,
    rowLeByMatches a b = true → rowLeByMatches b c = true →
      rowLeByMatches a c = true := by
  intro a b c h1 h2
  simp only [rowLeByMatches] at h1 h2 ⊢
  by_cases hab : wmOf a = wmOf b <;> by_cases hbc : wmOf b = wmOf c
  · rw [if_neg (by omega)] at h1
    rw [if_neg (by omega)] at h2
    rw [if_neg (by omega)]
    exact rowLeByLen_trans _ _ _ h1 h2
  · rw [if_pos (by omega)] at h2
    rw [if_pos (by omega)]
    simp only [decide_eq_true_eq] at h2 ⊢
    omega
  · rw [if_pos (by omega)] at h1
    rw [if_pos (by omega)]
    simp only [decide_eq_true_eq] at h1 ⊢
    omega
  · rw [if_pos (by omega)] at h1
    rw [if_pos (by omega)] at h2
    simp only [decide_eq_true_eq] at h1 h2
    by_cases hac : wmOf a = wmOf c
    · omega
    · rw [if_pos (by omega)]
      simp only [decide_eq_true_eq]
      omega

end GraphRAGQueryEngine

/-! ## Claims -/

open GraphRAGQueryEngine

/-- Database for the C1 counterexample: one medicine treating `flu`. -/
def c1DB : GraphDB := [⟨"A".toList, "flu".toList, none, none⟩]

/-- C1 (counterexample): on the query `"flu "` (a single word with a trailing
space) strategies 1 and 2 return zero rows and the strategy-3 word query
evaluated on the split words would return a row, yet
`semantic_disease_search` returns the empty list — the source runs strategy 3
only when the lower-cased query splits into more than one word, so the claim
that the function returns the first nonempty result set of the three
strategies fails. -/
theorem c1_counterexample :
    exactResults c1DB "flu ".toList = [] ∧
    containsResults c1DB "flu ".toList = [] ∧
    wordResults c1DB (PyStr.splitWs (PyStr.lower "flu ".toList)) ≠ [] ∧
    semantic_disease_search c1DB "flu ".toList = [] := by
  decide

/-- C1 (amended): `semantic_disease_search` tries exact match and contains
match in order, each later strategy invoked only when the earlier returned
zero rows; the word-based strategy is additionally attempted only when the
lower-cased query splits into more than one word; the function returns the
first nonempty result among the strategies it invoked, and the empty list
(not an error) otherwise. -/
theorem c1_fallback_amended (g : GraphDB) (q : Str) :
    (exactResults g q ≠ [] →
      semantic_disease_search g q = exactResults g q ∧
      strategiesInvoked g q = [1]) ∧
    (exactResults g q = [] → containsResults g q ≠ [] →
      semantic_disease_search g q = containsResults g q ∧
      strategiesInvoked g q = [1, 2]) ∧
    (exactResults g q = [] → containsResults g q = [] →
      1 < (PyStr.splitWs (PyStr.lower q)).length →
      semantic_disease_search g q = wordResults g (PyStr.splitWs (PyStr.lower q)) ∧
      strategiesInvoked g q = [1, 2, 3]) ∧
    (exactResults g q = [] → containsResults g q = [] →
      (PyStr.splitWs (PyStr.lower q)).length ≤ 1 →
      semantic_disease_search g q = [] ∧
      strategiesInvoked g q = [1, 2]) := by
  refine ⟨?_, ?_, ?_, ?_⟩
  · intro h
    simp [semantic_disease_search, strategiesInvoked, h]
  · intro h1 h2
    simp [semantic_disease_search, strategiesInvoked, h1, h2]
  · intro h1 h2 h3
    simp [semantic_disease_search, strategiesInvoked, h1, h2, h3]
  · intro h1 h2 h3
    simp [semantic_disease_search, strategiesInvoked, h1, h2, Nat.not_lt.mpr h3]

/-- Database for the `c1_fallback_amended` witness: strategy 1 succeeds. -/
def c1WitnessDB : GraphDB := [⟨"M2".toList, "lung cancer".toList, none, none⟩]

/-- Witness for `c1_fallback_amended`, instantiated where strategy 1 returns
a row. -/
theorem c1_fallback_amended_witness :
    semantic_disease_search c1WitnessDB "lung cancer".toList =
      exactResults c1WitnessDB "lung cancer".toList ∧
    strategiesInvoked c1WitnessDB "lung cancer".toList = [1] :=
  (c1_fallback_amended c1WitnessDB "lung cancer".toList).1 (by decide)

/-- C4: for every database and search term on which retrieval strategy 3 runs
(strategies 1 and 2 returned zero rows; in the source, reaching the strategy-3
query additionally requires the lower-cased term to split into more than one
word), the returned rows are the word-query result: the term is split into
words, a row appears exactly for the medicine-condition edges whose condition
name contains at least one of the words (each row carrying the matching-word
count), and the rows are ordered by matching-word count descending and,
within equal counts, by condition-name length ascending. -/
theorem c4_word_strategy (g : GraphDB) (q : Str)
    (h1 : exactResults g q = []) (h2 : containsResults g q = [])
    (hw : 1 < (PyStr.splitWs (PyStr.lower q)).length) :
    semantic_disease_search g q = wordResults g (PyStr.splitWs (PyStr.lower q)) ∧
    (∀ r, r ∈ semantic_disease_search g q ↔
      ∃ e ∈ g, (PyStr.splitWs (PyStr.lower q)).any
          (fun w => PyStr.containsSub (PyStr.lower e.disease) w) = true ∧
        r = wordRow (PyStr.splitWs (PyStr.lower q)) e) ∧
    (semantic_disease_search g q).Pairwise
      (fun a b => wmOf b < wmOf a ∨
        (wmOf a = wmOf b ∧ a.disease_treated.length ≤ b.disease_treated.length)) := by
  have hres : semantic_disease_search g q =
      wordResults g (PyStr.splitWs (PyStr.lower q)) := by
    simp [semantic_disease_search, h1, h2, hw]
  refine ⟨hres, ?_, ?_⟩
  · intro r
    rw [hres]
    unfold wordResults
    rw [mem_sortBy, mem_dedupFirst]
    simp only [List.mem_filter, List.mem_map]
    constructor
    · rintro ⟨⟨e, ⟨he, hany⟩, rfl⟩, _hwm⟩
      exact ⟨e, he, hany, rfl⟩
    · rintro ⟨e, he, hany, rfl⟩
      refine ⟨⟨e, ⟨he, hany⟩, rfl⟩, ?_⟩
      rcases List.any_eq_true.mp hany with ⟨w, hwmem, hcw⟩
      have hmemf : w ∈ (PyStr.splitWs (PyStr.lower q)).filter
          (fun w => PyStr.containsSub (PyStr.lower e.disease) w) :=
        List.mem_filter.mpr ⟨hwmem, hcw⟩
      have hpos := List.length_pos_of_mem hmemf
      simp only [wordRow, wmOf, Option.getD_some, decide_eq_true_eq]
      omega
  · rw [hres]
    unfold wordResults
    refine (pairwise_sortBy rowLeByMatches_total rowLeByMatches_trans _).imp ?_
    intro a b hle
    simp only [rowLeByMatches] at hle
    by_cases hwm : wmOf a = wmOf b
    · rw [if_neg (by omega)] at hle
      simp only [rowLeByLen] at hle
      by_cases hlen : a.disease_treated.length = b.disease_treated.length
      · exact Or.inr ⟨hwm, by omega⟩
      · rw [if_pos (by omega)] at hle
        exact Or.inr ⟨hwm, by simpa using Nat.le_of_lt (by simpa using hle)⟩
    · rw [if_pos (by omega)] at hle
      exact Or.inl (by simpa using hle)

/-- Database for the `c4_word_strategy` witness: no exact or contains match
for the query `"cancer lung"`, whose words match both conditions. -/
def c4DB : GraphDB := [
  ⟨"M1".toList, "severe lung infection".toList, some "c1".toList, none⟩,
  ⟨"M2".toList, "lung cancer".toList, none, none⟩]

/-- Witness for `c4_word_strategy` at a concrete database and term. -/
theorem c4_word_strategy_witness :
    semantic_disease_search c4DB "cancer lung".toList =
      wordResults c4DB (PyStr.splitWs (PyStr.lower "cancer lung".toList)) ∧
    (semantic_disease_search c4DB "cancer lung".toList).Pairwise
      (fun a b => wmOf b < wmOf a ∨
        (wmOf a = wmOf b ∧ a.disease_treated.length ≤ b.disease_treated.length)) :=
  ⟨(c4_word_strategy c4DB "cancer lung".toList (by decide) (by decide)
      (by decide)).1,
   (c4_word_strategy c4DB "cancer lung".toList (by decide) (by decide)
      (by decide)).2.2⟩

/-- C2: for every canonical condition in the synonym table and every phrasing
listed under it, `normalize_query` followed by `extract_disease_from_query`
yields a list containing the canonical condition; in particular,
`extract_disease_from_query` on the query `medicines for lung cancer` yields
the condition `lung cancer`. -/
theorem c2_synonym_roundtrip :
    (disease_synonyms.all fun cs =>
      cs.2.all fun phrasing =>
        (extract_disease_from_query (normalize_query phrasing)).contains cs.1)
      = true ∧
    "lung cancer".toList ∈
      extract_disease_from_query "medicines for lung cancer".toList := by
  constructor
  · decide
  · decide

/-! ## `GraphQueryEngine._extract_condition_from_query` (spec-modelled)

`streamlit_app.py` imports `GraphQueryEngine` (with
`_extract_condition_from_query`, per §1 of the spec) from `graph_rag_query`,
but the provided `graph_rag_query.py` defines only `GraphRAGQueryEngine`:
the extractor with positional heuristics is code of this repository that is
not among the provided source files, so it is modelled from the spec. -/

namespace GraphQueryEngine

/-- The suffix of `s` after the first occurrence of `pat` (unchanged when
`pat` does not occur). -/
def afterFirst (pat : Str) : Str → Str
  | [] => []
  | c :: rest =>
    if PyStr.startsWith (c :: rest) pat then (c :: rest).drop pat.length
    else afterFirst pat rest

/-- Tests whether `pat` occurs at the end of `s`. -/
def endsWith (s pat : Str) : Bool :=
  PyStr.startsWith s.reverse pat.reverse

/-- Modelled from the spec: the positional heuristic "X for <condition>" —
when the query contains `" for "`, the stripped text after its first
occurrence is a candidate condition. -/
def forPatternCandidates (q : Str) : List Str :=
  if PyStr.containsSub q " for ".toList then
    [PyStr.strip (afterFirst " for ".toList q)]
  else []

/-- Modelled from the spec: the positional heuristic "<condition> medicine" —
when the query ends in `" medicine"`, the stripped text before it is a
candidate condition. -/
def medicinePatternCandidates (q : Str) : List Str :=
  if endsWith q " medicine".toList then
    [PyStr.strip (q.take (q.length - " medicine".length))]
  else []

/-- Modelled from the spec: the "small fixed set of common single-word
conditions"; the spec's example fixes `fever` as a member, the rest of the
set is unspecified. -/
def commonConditions : List Str :=
  ["fever".toList, "pain".toList, "headache".toList, "cough".toList,
   "cold".toList, "infection".toList, "diabetes".toList, "asthma".toList]

/-- Modelled from the spec (§4.1): `_extract_condition_from_query` —
lower-case, trim and strip filler phrases (the `normalize_query` step); check
the synonym table; if no table hit, apply the regex heuristic for phrases
ending in cancer/tumor/disease/syndrome/infection; if still empty, apply the
positional heuristics and the common single-word conditions that occur as
words of the query. -/
def extractConditionFromQuery (query : Str) : List Str :=
  let nq := GraphRAGQueryEngine.normalize_query query
  let tableHits := GraphRAGQueryEngine.synonymHits nq
  if tableHits ≠ [] then tableHits
  else
    let regexHits := (GraphRAGQueryEngine.findDiseaseTerms nq).map PyStr.strip
    if regexHits ≠ [] then regexHits
    else
      forPatternCandidates nq ++ medicinePatternCandidates nq ++
        commonConditions.filter fun w => (PyStr.splitWs nq).contains w

end GraphQueryEngine

/-- C3: for every query on which neither the synonym table nor the regex
heuristic yields a condition, the (spec-modelled) condition extractor falls
through to the positional heuristics ("X for <condition>",
"<condition> medicine") and the fixed set of common single-word conditions;
in particular, on `drug for high fever` the table and the regex yield
nothing, the `" for "` pattern rule yields the candidate `high fever`, and
the extraction also falls through to the single-word match on `fever`. -/
theorem c3_condition_heuristics :
    (∀ q : Str,
      GraphRAGQueryEngine.synonymHits (GraphRAGQueryEngine.normalize_query q) = [] →
      (GraphRAGQueryEngine.findDiseaseTerms
        (GraphRAGQueryEngine.normalize_query q)).map PyStr.strip = [] →
      GraphQueryEngine.extractConditionFromQuery q =
        GraphQueryEngine.forPatternCandidates (GraphRAGQueryEngine.normalize_query q) ++
        GraphQueryEngine.medicinePatternCandidates (GraphRAGQueryEngine.normalize_query q) ++
        GraphQueryEngine.commonConditions.filter
          (fun w => (PyStr.splitWs (GraphRAGQueryEngine.normalize_query q)).contains w)) ∧
    GraphRAGQueryEngine.synonymHits
      (GraphRAGQueryEngine.normalize_query "drug for high fever".toList) = [] ∧
    GraphRAGQueryEngine.findDiseaseTerms
      (GraphRAGQueryEngine.normalize_query "drug for high fever".toList) = [] ∧
    GraphQueryEngine.forPatternCandidates
      (GraphRAGQueryEngine.normalize_query "drug for high fever".toList) =
      ["high fever".toList] ∧
    "high fever".toList ∈
      GraphQueryEngine.extractConditionFromQuery "drug for high fever".toList ∧
    "fever".toList ∈
      GraphQueryEngine.extractConditionFromQuery "drug for high fever".toList := by
  refine ⟨?_, by decide, by decide, by decide, by decide, by decide⟩
  intro q h1 h2
  simp [GraphQueryEngine.extractConditionFromQuery, h1, h2]

/-- Witness for `c3_condition_heuristics`, instantiated at the spec's
example query. -/
theorem c3_condition_heuristics_witness :
    GraphQueryEngine.extractConditionFromQuery "drug for high fever".toList =
      GraphQueryEngine.forPatternCandidates
        (GraphRAGQueryEngine.normalize_query "drug for high fever".toList) ++
      GraphQueryEngine.medicinePatternCandidates
        (GraphRAGQueryEngine.normalize_query "drug for high fever".toList) ++
      GraphQueryEngine.commonConditions.filter
        (fun w => (PyStr.splitWs
          (GraphRAGQueryEngine.normalize_query "drug for high fever".toList)).contains w) :=
  c3_condition_heuristics.1 "drug for high fever".toList (by decide) (by decide)

/-! ## C5/C6: loader invariants -/

open GraphRAGLoader

theorem any_decide_eq_iff {α : Type} (f : α → Str) (l : List α) (n : Str) :
    (l.any fun x => decide (f x = n)) = true ↔ n ∈ l.map f := by
  rw [List.any_eq_true]
  constructor
  · rintro ⟨x, hx, hxn⟩
    exact List.mem_map.mpr ⟨x, hx, by simpa using hxn⟩
  · intro h
    rcases List.mem_map.mp h with ⟨x, hx, rfl⟩
    exact ⟨x, hx, by simp⟩

theorem mergeMedicineSet_inv (ms : List MedicineNode) (n c m : Str)
    (hnodup : (ms.map fun x => x.name).Nodup)
    (hnorm : ∀ x ∈ ms, x.normalized_name = some (PyStr.lower x.name)) :
    ((mergeMedicineSet ms n c m).map fun x => x.name).Nodup ∧
    (∀ x ∈ mergeMedicineSet ms n c m,
      x.normalized_name = some (PyStr.lower x.name)) ∧
    n ∈ (mergeMedicineSet ms n c m).map fun x => x.name := by
  unfold mergeMedicineSet
  by_cases h : (ms.any fun x => decide (x.name = n)) = true
  · rw [if_pos h]
    have hnames : ((ms.map fun x => if x.name = n then { x with normalized_name := some (PyStr.lower n), composition := some c, manufacturer := some m } else x).map fun x => x.name) = ms.map fun x => x.name := by
      rw [List.map_map]
      apply List.map_congr_left
      intro x _
      by_cases hx : x.name = n <;> simp [hx]
    refine ⟨hnames ▸ hnodup, ?_, ?_⟩
    · intro x hx
      rcases List.mem_map.mp hx with ⟨y, hy, rfl⟩
      by_cases hyn : y.name = n
      · simp [hyn]
      · simp [hyn, hnorm y hy]
    · rw [hnames]
      exact (any_decide_eq_iff (fun x => x.name) ms n).mp h
  · rw [if_neg h]
    have hnotmem : n ∉ ms.map fun x => x.name :=
      fun hc => h ((any_decide_eq_iff (fun x => x.name) ms n).mpr hc)
    refine ⟨?_, ?_, ?_⟩
    · have hmap : ((ms ++ [({ name := n, normalized_name := some (PyStr.lower n), composition := some c, manufacturer := some m } : MedicineNode)]).map fun x => x.name) = (ms.map fun x => x.name) ++ [n] := by
        simp
      rw [hmap, List.nodup_append_comm]
      exact List.nodup_cons.mpr ⟨hnotmem, hnodup⟩
    · intro x hx
      rcases List.mem_append.mp hx with hx | hx
      · exact hnorm x hx
      · simp only [List.mem_singleton] at hx
        subst hx
        rfl
    · simp

theorem mergeNamedSet_inv (ns : List NamedNode) (n : Str)
    (hnodup : (ns.map fun x => x.name).Nodup)
    (hnorm : ∀ x ∈ ns, x.normalized_name = some (PyStr.lower x.name)) :
    ((mergeNamedSet ns n).map fun x => x.name).Nodup ∧
    (∀ x ∈ mergeNamedSet ns n,
      x.normalized_name = some (PyStr.lower x.name)) := by
  unfold mergeNamedSet
  by_cases h : (ns.any fun x => decide (x.name = n)) = true
  · rw [if_pos h]
    have hnames : ((ns.map fun x => if x.name = n then { x with normalized_name := some (PyStr.lower n) } else x).map fun x => x.name) = ns.map fun x => x.name := by
      rw [List.map_map]
      apply List.map_congr_left
      intro x _
      by_cases hx : x.name = n <;> simp [hx]
    refine ⟨hnames ▸ hnodup, ?_⟩
    intro x hx
    rcases List.mem_map.mp hx with ⟨y, hy, rfl⟩
    by_cases hyn : y.name = n
    · simp [hyn]
    · simp [hyn, hnorm y hy]
  · rw [if_neg h]
    have hnotmem : n ∉ ns.map fun x => x.name :=
      fun hc => h ((any_decide_eq_iff (fun x => x.name) ns n).mpr hc)
    refine ⟨?_, ?_⟩
    · have hmap : ((ns ++ [({ name := n, normalized_name := some (PyStr.lower n) } : NamedNode)]).map fun x => x.name) = (ns.map fun x => x.name) ++ [n] := by
        simp
      rw [hmap, List.nodup_append_comm]
      exact List.nodup_cons.mpr ⟨hnotmem, hnodup⟩
    · intro x hx
      rcases List.mem_append.mp hx with hx | hx
      · exact hnorm x hx
      · simp only [List.mem_singleton] at hx
        subst hx
        rfl

theorem mergeNamedBare_nodup (ns : List NamedNode) (n : Str)
    (hnodup : (ns.map fun x => x.name).Nodup) :
    ((mergeNamedBare ns n).map fun x => x.name).Nodup := by
  unfold mergeNamedBare
  by_cases h : (ns.any fun x => decide (x.name = n)) = true
  · rw [if_pos h]
    exact hnodup
  · rw [if_neg h]
    have hnotmem : n ∉ ns.map fun x => x.name :=
      fun hc => h ((any_decide_eq_iff (fun x => x.name) ns n).mpr hc)
    have hmap : ((ns ++ [({ name := n, normalized_name := none } : NamedNode)]).map fun x => x.name) = (ns.map fun x => x.name) ++ [n] := by
      simp
    rw [hmap, List.nodup_append_comm]
    exact List.nodup_cons.mpr ⟨hnotmem, hnodup⟩

theorem mergeMedicineBare_of_mem (ms : List MedicineNode) (n : Str)
    (h : n ∈ ms.map fun x => x.name) : mergeMedicineBare ms n = ms := by
  unfold mergeMedicineBare
  rw [if_pos ((any_decide_eq_iff (fun x => x.name) ms n).mpr h)]

/-- The loader's per-label uniqueness and normalized-name invariant. -/
def LoaderInv (s : GraphState) : Prop :=
  (s.medicines.map fun x => x.name).Nodup ∧
  (s.compositions.map fun x => x.name).Nodup ∧
  (s.manufacturers.map fun x => x.name).Nodup ∧
  (s.diseases.map fun x => x.name).Nodup ∧
  (s.sideEffects.map fun x => x.name).Nodup ∧
  (∀ x ∈ s.medicines, x.normalized_name = some (PyStr.lower x.name)) ∧
  (∀ x ∈ s.diseases, x.normalized_name = some (PyStr.lower x.name)) ∧
  (∀ x ∈ s.sideEffects, x.normalized_name = some (PyStr.lower x.name))

theorem foldl_inv {σ β : Type} {P : σ → Prop} (f : σ → β → σ)
    (hf : ∀ s x, P s → P (f s x)) :
    ∀ (l : List β) (s : σ), P s → P (l.foldl f s)
  | [], _, h => h
  | x :: xs, s, h => foldl_inv f hf xs (f s x) (hf s x h)

theorem applyDiseaseQuery_inv (t : GraphState) (med d : Str)
    (ht : LoaderInv t ∧ med ∈ (t.medicines.map fun x => x.name)) :
    LoaderInv (applyDiseaseQuery t med d) ∧
      med ∈ ((applyDiseaseQuery t med d).medicines.map fun x => x.name) := by
  obtain ⟨⟨t1, t2, t3, t4, t5, t6, t7, t8⟩, hmem⟩ := ht
  unfold applyDiseaseQuery LoaderInv
  simp only
  rw [mergeMedicineBare_of_mem _ _ hmem]
  have hd := mergeNamedSet_inv t.diseases d t4 t7
  exact ⟨⟨t1, t2, t3, hd.1, t5, t6, hd.2, t8⟩, hmem⟩

theorem applyEffectQuery_inv (t : GraphState) (med e : Str)
    (ht : LoaderInv t ∧ med ∈ (t.medicines.map fun x => x.name)) :
    LoaderInv (applyEffectQuery t med e) ∧
      med ∈ ((applyEffectQuery t med e).medicines.map fun x => x.name) := by
  obtain ⟨⟨t1, t2, t3, t4, t5, t6, t7, t8⟩, hmem⟩ := ht
  unfold applyEffectQuery LoaderInv
  simp only
  rw [mergeMedicineBare_of_mem _ _ hmem]
  have he := mergeNamedSet_inv t.sideEffects e t5 t8
  exact ⟨⟨t1, t2, t3, t4, he.1, t6, t7, he.2⟩, hmem⟩

theorem processRow_inv (s : GraphState) (row : CsvRow)
    (h : LoaderInv s) : LoaderInv (processRow s row) := by
  obtain ⟨h1, h2, h3, h4, h5, h6, h7, h8⟩ := h
  unfold processRow
  simp only
  generalize PyStr.strip row.medicineName = med
  generalize (match row.composition with | some c => PyStr.strip c | none => "Unknown".toList : Str) = comp
  generalize (match row.manufacturer with | some m => PyStr.strip m | none => "Unknown".toList : Str) = man
  have hmed := mergeMedicineSet_inv s.medicines med comp man h1 h6
  have hstep2 : LoaderInv (applyCompQuery (applyMedicineQuery s med comp man) med comp man) ∧
      med ∈ ((applyCompQuery (applyMedicineQuery s med comp man) med comp man).medicines.map fun x => x.name) := by
    unfold applyMedicineQuery applyCompQuery LoaderInv
    simp only
    rw [mergeMedicineBare_of_mem _ _ hmed.2.2]
    exact ⟨⟨hmed.1, mergeNamedBare_nodup _ _ h2, mergeNamedBare_nodup _ _ h3,
      h4, h5, hmed.2.1, h7, h8⟩, hmed.2.2⟩
  have hfold1 := foldl_inv (fun t d => applyDiseaseQuery t med d)
    (fun t d ht => applyDiseaseQuery_inv t med d ht)
    (parse_uses_field (row.uses.getD [])) _ hstep2
  have hfold2 := foldl_inv (fun t e => applyEffectQuery t med e)
    (fun t e ht => applyEffectQuery_inv t med e ht)
    (parse_side_effects_field (row.sideEffects.getD [])) _ hfold1
  exact hfold2.1

/-- Rows for the C5 counterexample: two medicines whose uses parse to `Flu`
and `flu` respectively. -/
def c5Rows : List CsvRow := [
  ⟨"MedA".toList, none, none, some "Flu".toList, none⟩,
  ⟨"MedB".toList, none, none, some "flu".toList, none⟩]

/-- C5 (counterexample): after a run of the bulk loader on `c5Rows`, the
Disease label holds the two nodes `Flu` and `flu`, whose names differ only in
letter case: node identity is not keyed by the normalized (lower-cased) name,
and per-label uniqueness does not hold up to case. -/
theorem c5_counterexample :
    ((load_csv_to_graph emptyGraph c5Rows).diseases.map fun d => d.name)
      = ["Flu".toList, "flu".toList] ∧
    PyStr.lower "Flu".toList = PyStr.lower "flu".toList ∧
    "Flu".toList ≠ "flu".toList := by
  refine ⟨by decide, by decide, by decide⟩

/-- C5 (amended): after any run of the bulk loader, node identity and
per-label name uniqueness are keyed by the exact (case-sensitive) `name` —
no two nodes of the same label share the same raw name — and the lower-cased
name is additionally stored in the `normalized_name` property of the labels
whose merge carries a `SET` clause (Medicine, Disease, SideEffect). -/
theorem c5_identity_amended (pre : GraphState) (rows : List CsvRow) :
    (((load_csv_to_graph pre rows).medicines.map fun x => x.name).Nodup) ∧
    (((load_csv_to_graph pre rows).compositions.map fun x => x.name).Nodup) ∧
    (((load_csv_to_graph pre rows).manufacturers.map fun x => x.name).Nodup) ∧
    (((load_csv_to_graph pre rows).diseases.map fun x => x.name).Nodup) ∧
    (((load_csv_to_graph pre rows).sideEffects.map fun x => x.name).Nodup) ∧
    (∀ x ∈ (load_csv_to_graph pre rows).medicines,
      x.normalized_name = some (PyStr.lower x.name)) ∧
    (∀ x ∈ (load_csv_to_graph pre rows).diseases,
      x.normalized_name = some (PyStr.lower x.name)) ∧
    (∀ x ∈ (load_csv_to_graph pre rows).sideEffects,
      x.normalized_name = some (PyStr.lower x.name)) := by
  have hempty : LoaderInv GraphRAGLoader.emptyGraph := by
    refine ⟨?_, ?_, ?_, ?_, ?_, ?_, ?_, ?_⟩ <;>
      simp [GraphRAGLoader.emptyGraph, LoaderInv]
  exact foldl_inv processRow processRow_inv rows GraphRAGLoader.emptyGraph hempty

/-- The `Flu` disease node created by loading `c5Rows`. -/
def c5FluNode : NamedNode := ⟨"Flu".toList, some "flu".toList⟩

/-- Witness for `c5_identity_amended`: the normalized-name property at a
concrete loaded disease node. -/
theorem c5_identity_amended_witness :
    c5FluNode.normalized_name = some (PyStr.lower c5FluNode.name) :=
  (c5_identity_amended GraphRAGLoader.emptyGraph c5Rows).2.2.2.2.2.2.1
    c5FluNode (by decide)

/-- C6: `load_csv_to_graph` clears the graph before loading and is a
deterministic function of the rows, so running it twice on identical input
yields the same graph as running it once; in particular the node count after
the second run equals the node count after the first run — no nodes are
duplicated. -/
theorem c6_loader_idempotent (pre : GraphState) (rows : List CsvRow) :
    load_csv_to_graph (load_csv_to_graph pre rows) rows =
      load_csv_to_graph pre rows ∧
    nodeCount (load_csv_to_graph (load_csv_to_graph pre rows) rows) =
      nodeCount (load_csv_to_graph pre rows) :=
  ⟨rfl, rfl⟩

/-- The failing LLM call used by the C7 counterexample: every completion
request raises an API error. -/
def c7FailLLM : Str → LLMChains.LLMOutcome :=
  fun _ => LLMChains.LLMOutcome.apiError "connection error".toList

/-- C7 (counterexample): when the LLM call raises an API error, the answer
generation around `assistant_chain` does not return a user-visible error text
embedded in its return value: `assistant_chain.invoke` and the Tab 2 handler
of `app.py` both propagate the exception to the caller. -/
theorem c7_counterexample :
    LLMChains.assistant_chain_invoke c7FailLLM "ctx".toList
      "Explain Avastin".toList = Except.error "connection error".toList ∧
    LLMChains.app_tab2_explain c7FailLLM "ctx".toList
      "Explain Avastin".toList = Except.error "connection error".toList := by
  constructor <;> rfl

/-- C7 (amended): `assistant_chain` formats the prompt and calls the LLM; on
success the LangChain result dict (with the `text` output key) is returned,
and when the API call raises, the exception propagates unchanged through
`assistant_chain.invoke` and through the Tab 2 handler in `app.py` — neither
installs a handler, and no error text is embedded in a returned value. -/
theorem c7_error_propagation_amended (llm : Str → LLMChains.LLMOutcome)
    (context question : Str) :
    (∀ e, llm (LLMChains.assistant_prompt_format context question) =
        LLMChains.LLMOutcome.apiError e →
      LLMChains.assistant_chain_invoke llm context question = Except.error e ∧
      LLMChains.app_tab2_explain llm context question = Except.error e) ∧
    (∀ t, llm (LLMChains.assistant_prompt_format context question) =
        LLMChains.LLMOutcome.ok t →
      LLMChains.assistant_chain_invoke llm context question =
        Except.ok [("context".toList, context), ("question".toList, question),
          ("text".toList, t)] ∧
      LLMChains.app_tab2_explain llm context question = Except.ok t) := by
  constructor
  · intro e he
    have hinv : LLMChains.assistant_chain_invoke llm context question =
        Except.error e := by
      simp [LLMChains.assistant_chain_invoke, he]
    exact ⟨hinv, by simp [LLMChains.app_tab2_explain, hinv]⟩
  · intro t ht
    have hinv : LLMChains.assistant_chain_invoke llm context question =
        Except.ok [("context".toList, context), ("question".toList, question),
          ("text".toList, t)] := by
      simp [LLMChains.assistant_chain_invoke, ht]
    refine ⟨hinv, ?_⟩
    rw [LLMChains.app_tab2_explain, hinv]
    rfl

/-- Witness for `c7_error_propagation_amended` at the failing LLM call. -/
theorem c7_error_propagation_amended_witness :
    LLMChains.assistant_chain_invoke c7FailLLM "c".toList "q".toList =
      Except.error "connection error".toList ∧
    LLMChains.app_tab2_explain c7FailLLM "c".toList "q".toList =
      Except.error "connection error".toList :=
  (c7_error_propagation_amended c7FailLLM "c".toList "q".toList).1
    "connection error".toList rfl

/-- C8 (counterexample): when query execution raises,
`Neo4jConnection.query` catches and logs the failure but returns Python
`None` (the sentinel initial value of `response`) — the caller receives a
non-result value, not an empty result set. -/
theorem c8_counterexample :
    (@Neo4jConnection.query SearchRow true (Except.error "boom".toList)).1
      = none ∧
    (@Neo4jConnection.query SearchRow true (Except.error "boom".toList)).1
      ≠ some [] ∧
    Neo4jConnection.Ev.logged ∈
      (@Neo4jConnection.query SearchRow true (Except.error "boom".toList)).2 := by
  refine ⟨rfl, by decide, by decide⟩

/-- C8 (amended): `Neo4jConnection.query` catches and logs both connectivity
and execution failures and returns `None` (the initial `response` value)
instead of raising; callers that truth-test the result — strategies 1 and 2
of `semantic_disease_search` — treat `None` like an empty result, but the
returned value on failure is `None`, not an empty result set. -/
theorem c8_query_failure_amended {α : Type} (e : Str) (rows : List α) :
    @Neo4jConnection.query α false (Except.ok rows) =
      (none, [Neo4jConnection.Ev.logged]) ∧
    @Neo4jConnection.query α false (Except.error e) =
      (none, [Neo4jConnection.Ev.logged]) ∧
    @Neo4jConnection.query α true (Except.error e) =
      (none, [Neo4jConnection.Ev.opened, Neo4jConnection.Ev.logged,
        Neo4jConnection.Ev.closed]) ∧
    @Neo4jConnection.query α true (Except.ok rows) =
      (some rows, [Neo4jConnection.Ev.opened, Neo4jConnection.Ev.ran,
        Neo4jConnection.Ev.closed]) :=
  ⟨rfl, rfl, rfl, rfl⟩

/-- C9: every invocation of `Neo4jConnection.query` that opens a session
closes it before the method returns — the trace is open, run, close on the
success path and open, log, close on the execution-error path; when the
session cannot be opened, nothing was acquired and nothing is closed: scoped
acquisition with guaranteed release, including on the error path. -/
theorem c9_session_scoped {α : Type} (openOk : Bool)
    (run : Except Str (List α)) :
    (Neo4jConnection.Ev.opened ∈ (@Neo4jConnection.query α openOk run).2 →
      (@Neo4jConnection.query α openOk run).2.getLast? =
        some Neo4jConnection.Ev.closed) ∧
    (openOk = true →
      Neo4jConnection.Ev.opened ∈ (@Neo4jConnection.query α openOk run).2 ∧
      Neo4jConnection.Ev.closed ∈ (@Neo4jConnection.query α openOk run).2) ∧
    (∀ rows, run = Except.ok rows → openOk = true →
      (@Neo4jConnection.query α openOk run).2 =
        [Neo4jConnection.Ev.opened, Neo4jConnection.Ev.ran,
         Neo4jConnection.Ev.closed] ∧
      (@Neo4jConnection.query α openOk run).1 = some rows) := by
  cases openOk <;> cases run <;>
    simp [Neo4jConnection.query]

/-- Witness for `c9_session_scoped` on the success path. -/
theorem c9_session_scoped_witness :
    (@Neo4jConnection.query Nat true (Except.ok [])).2 =
      [Neo4jConnection.Ev.opened, Neo4jConnection.Ev.ran,
       Neo4jConnection.Ev.closed] ∧
    (@Neo4jConnection.query Nat true (Except.ok [])).1 = some [] :=
  (@c9_session_scoped Nat true (Except.ok [])).2.2 [] rfl rfl

/-- C10: for every database and query, the result dict of
`answer_natural_language_query` holds at most one entry per medicine name in
`medicines_found` — for each name the first row produced across the
per-disease searches is kept — and `total_medicines` equals the length of
`medicines_found`. -/
theorem c10_unique_medicines (g : GraphDB) (query : Str) :
    ((answer_natural_language_query g query).medicines_found.map
      fun r : SearchRow => r.medicine).Nodup ∧
    (answer_natural_language_query g query).total_medicines =
      (answer_natural_language_query g query).medicines_found.length ∧
    ∀ r ∈ (answer_natural_language_query g query).medicines_found,
      (allMedicines g query).find?
        (fun x : SearchRow => decide (x.medicine = r.medicine)) = some r := by
  have hfound : (answer_natural_language_query g query).medicines_found =
      dedupByKey (fun r : SearchRow => r.medicine) (allMedicines g query) := by
    simp only [answer_natural_language_query]
  have htotal : (answer_natural_language_query g query).total_medicines =
      (dedupByKey (fun r : SearchRow => r.medicine)
        (allMedicines g query)).length := by
    simp only [answer_natural_language_query]
  refine ⟨?_, ?_, ?_⟩
  · rw [hfound]
    exact dedupByKey_map_nodup (fun r : SearchRow => r.medicine)
      (allMedicines g query)
  · rw [htotal, hfound]
  · intro r hr
    rw [hfound] at hr
    exact find?_dedupByKey hr

/-- Database for the `c10_unique_medicines` witness. -/
def c10DB : GraphDB := [⟨"M2".toList, "lung cancer".toList, none, none⟩]

/-- The row kept in `medicines_found` for the `c10_unique_medicines`
witness. -/
def c10Row : SearchRow := ⟨"M2".toList, "lung cancer".toList, none, none, none⟩

set_option maxHeartbeats 1000000 in
/-- Witness for `c10_unique_medicines` at a concrete database and query. -/
theorem c10_unique_medicines_witness :
    (allMedicines c10DB "lung cancer".toList).find?
      (fun x => decide (x.medicine = c10Row.medicine)) = some c10Row :=
  (c10_unique_medicines c10DB "lung cancer".toList).2.2 c10Row (by decide)
